import Mathlib

/-!
Verification development for the Stencil-Art color-group extraction engine.

The definitions below are a shallow embedding of the TypeScript source:
* `src/utils/colorUtils.ts` — color distance and color-string parsing,
* `src/utils/imageProcessor.ts` (`processSVG`, `processRaster`) — first-fit
  clustering of vector shapes and raster pixel colors,
* `src/App.tsx` — path normalization (`transformSvgElements`), raster
  reconstruction (`ReassembledPreview`), and the layer-edit operations
  (delete / undo-delete / reorder-undo / merge / undo-merge).

Conventions used by the embedding:
* JavaScript numbers appearing in geometry are modeled as `ℚ`; a value that
  could be `NaN`/`undefined` (a failed `parseFloat` token, or an out-of-range
  array access) is modeled as `Option ℚ` with `none` as the absent value.
* The source compares Euclidean RGB distance `sqrt(d2) < tolerance * 2.55`.
  Both sides are nonnegative, so squaring is exact:
  `sqrt(d2) < 51*t/20  ↔  400 * d2 < (51*t)^2`, which is the integer
  comparison used here (`nearColor`).  Binary-float rounding of `2.55` is
  ignored by this model.
* `Array.prototype.sort` is stable (ES2019); it is modeled by a stable
  insertion sort `sortByDesc`.
-/

namespace StencilArt

/-- Structure `RGBColor` from `src/types.ts`: three 8-bit channels (modeled as `Nat`). -/
structure RGBColor where
  r : Nat
  g : Nat
  b : Nat
deriving DecidableEq, Repr

/-- Pure white, the special-cased color of `processSVG`. -/
def pureWhite : RGBColor := ⟨255, 255, 255⟩

/-- Color `#F7F7F7`, the replacement color used for white shapes in `processSVG`. -/
def offWhite : RGBColor := ⟨247, 247, 247⟩

/-- Squared Euclidean RGB distance; `colorDistance` in `colorUtils.ts` is its
square root. -/
def colorDist2 (c1 c2 : RGBColor) : Int :=
  let dr : Int := (c1.r : Int) - (c2.r : Int)
  let dg : Int := (c1.g : Int) - (c2.g : Int)
  let db : Int := (c1.b : Int) - (c2.b : Int)
  dr * dr + dg * dg + db * db

/-- The clustering test `colorDistance(c1, c2) < tolerance * 2.55` of the
source, squared into an exact integer comparison
(`maxDist = tolerance * 2.55 = 51 * tolerance / 20`). -/
def nearColor (tol : Nat) (c1 c2 : RGBColor) : Bool :=
  400 * colorDist2 c1 c2 < ((51 * tol : Nat) : Int) ^ 2

/-- A single SVG path command as produced by the command-splitting regex of
`transformSvgElements`: the command letter and its `parseFloat`-ed numeric
arguments (`none` models `NaN`/`undefined`). -/
structure PathCmd where
  letter : Char
  args : List (Option ℚ)
deriving DecidableEq, Repr

/-- The output-relevant attributes of one SVG shape element: its optional
path data (`d` attribute, already split into commands) and whether it still
carries a `transform` attribute. -/
structure SvgElem where
  d : Option (List PathCmd)
  hasTransform : Bool
deriving DecidableEq, Repr

/-- Structure `SVGPathData` from `src/types.ts`: a shape with its resolved fill color.
The source group stores only `path.element`; this model keeps the whole
record so that member colors stay observable (project `·.element` to recover
the source's list). -/
structure SVGPathData where
  color : RGBColor
  element : SvgElem
deriving DecidableEq, Repr

/-- Structure `SVGColorGroup` from `src/types.ts` (see `SVGPathData` for the element
representation). -/
structure SVGColorGroup where
  representativeColor : RGBColor
  elements : List SVGPathData
deriving DecidableEq, Repr

/-- A pre-ingestion vector shape as `processSVG` sees it: the computed-style
fill (already parsed to a color, `none` for `fill: none`/unresolvable), the
parsed `fill-opacity` (`none` models a `NaN` parse), and the geometry. -/
structure RawSvgShape where
  fill : Option RGBColor
  fillOpacity : Option ℚ
  geom : SvgElem
deriving DecidableEq, Repr

/-- The per-element ingestion step of `processSVG` (lines 41–67): remap a
pure-white fill to `#F7F7F7`, default a `NaN` fill-opacity to 1, and keep the
shape only when it has a fill and positive fill-opacity.  (The clone's
`stroke="none"` / white `fill` attribute rewrites are not observed by any
claim and are not carried by `SvgElem`.) -/
def ingestShape (el : RawSvgShape) : Option SVGPathData :=
  let fill := if el.fill = some pureWhite then some offWhite else el.fill
  let fillOpacity := el.fillOpacity.getD 1
  if 0 < fillOpacity then fill.map (fun c => ⟨c, el.geom⟩) else none

/-- One step of the first-fit loop of `processSVG` (lines 74–89): append the
shape to the first existing group whose representative color is within the
threshold, else create a new group at the end. -/
def placeSVG (tol : Nat) (groups : List SVGColorGroup) (p : SVGPathData) :
    List SVGColorGroup :=
  match groups with
  | [] => [⟨p.color, [p]⟩]
  | g :: rest =>
    if nearColor tol p.color g.representativeColor then
      ⟨g.representativeColor, g.elements ++ [p]⟩ :: rest
    else
      g :: placeSVG tol rest p

/-- First-fit clustering of vector shapes in document order
(`processSVG`, lines 71–89). -/
def clusterSVG (tol : Nat) (paths : List SVGPathData) : List SVGColorGroup :=
  paths.foldl (placeSVG tol) []

/-- Function `processSVG` restricted to its pure core: ingestion followed by
first-fit clustering (group order = creation order, no dominance sort). -/
def processSVGGroups (els : List RawSvgShape) (tol : Nat) : List SVGColorGroup :=
  clusterSVG tol (els.filterMap ingestShape)

/-- One RGBA pixel of the decoded image buffer. -/
structure RGBA where
  r : Nat
  g : Nat
  b : Nat
  a : Nat
deriving DecidableEq, Repr

/-- Structure `RasterColorGroup` from `src/types.ts`. -/
structure RasterColorGroup where
  representativeColor : RGBColor
  memberColors : List RGBColor
  totalCount : Nat
deriving DecidableEq, Repr

/-- A default raster group for out-of-range accesses. -/
def dummyRasterGroup : RasterColorGroup := ⟨⟨0, 0, 0⟩, [], 0⟩

/-- Stable insert for a descending insertion sort: `x` goes in front of the
first element whose key does not exceed its own, so elements with equal keys
keep their original relative order. -/
def insertDesc (key : α → Nat) (x : α) : List α → List α
  | [] => [x]
  | y :: ys => if key y ≤ key x then x :: y :: ys else y :: insertDesc key x ys

/-- Stable sort by descending key; models the stable
`Array.prototype.sort((a, b) => key(b) - key(a))` of the source. -/
def sortByDesc (key : α → Nat) : List α → List α
  | [] => []
  | x :: xs => insertDesc key x (sortByDesc key xs)

/-- Helper for `everyNth`: the second argument counts down the positions
still to skip before the next kept pixel; after a keep it resets to
`skip` (the stride minus one). -/
def everyNthAux (skip : Nat) : Nat → List α → List α
  | _, [] => []
  | 0, x :: xs => x :: everyNthAux skip skip xs
  | k + 1, _ :: xs => everyNthAux skip k xs

/-- The sampling loop stride of `processRaster`
(`for (i = 0; i < data.length; i += 4 * sampleRate)`): keep every
`rate`-th pixel, starting with the first. -/
def everyNth (rate : Nat) (l : List α) : List α :=
  everyNthAux (rate - 1) 0 l

/-- One update of the insertion-ordered frequency table `colorMap` of
`processRaster`: bump the count of `c` if present, else append `(c, 1)`.
(The JS object keys are `"r,g,b"` strings — not array indices — so
`Object.values` returns them in insertion order.) -/
def bumpColor (c : RGBColor) : List (RGBColor × Nat) → List (RGBColor × Nat)
  | [] => [(c, 1)]
  | (c', n) :: rest =>
    if c' = c then (c', n + 1) :: rest else (c', n) :: bumpColor c rest

/-- One step of the first-fit loop of `processRaster` (lines 134–151): add
the color and its count to the first group within the threshold, else seed a
new group. -/
def placeRaster (tol : Nat) (groups : List RasterColorGroup)
    (cd : RGBColor × Nat) : List RasterColorGroup :=
  match groups with
  | [] => [⟨cd.1, [cd.1], cd.2⟩]
  | g :: rest =>
    if nearColor tol cd.1 g.representativeColor then
      ⟨g.representativeColor, g.memberColors ++ [cd.1], g.totalCount + cd.2⟩ :: rest
    else
      g :: placeRaster tol rest cd

/-- The pure core of `processRaster` (lines 114–156): stride sampling,
alpha < 128 exclusion, insertion-ordered frequency table, stable sort of the
distinct colors by descending count, first-fit clustering, and a final
stable sort of the groups by descending total pixel count.
`Math.floor(Math.sqrt(pixelCount) / 1000)` is `Nat.sqrt pixelCount / 1000`. -/
def processRasterGroups (pixels : List RGBA) (tol : Nat) :
    List RasterColorGroup :=
  let sampleRate := max 1 (Nat.sqrt pixels.length / 1000)
  let sampled := (everyNth sampleRate pixels).filter (fun p => 128 ≤ p.a)
  let colorMap := sampled.foldl (fun m p => bumpColor ⟨p.r, p.g, p.b⟩ m) []
  let sortedColors := sortByDesc (fun cd => cd.2) colorMap
  let groups := sortedColors.foldl (placeRaster tol) []
  sortByDesc (fun g => g.totalCount) groups

/-- The inner argmin loop of `ReassembledPreview` (lines 164–173): running
`(bestGroupIndex, minDistance)` state, strict `<` update so the first group
attaining the minimum wins; `none` models `bestGroupIndex === -1` /
`minDistance === Infinity`.  Distances are kept squared (`colorDist2`),
which preserves both the comparisons and the tie-breaking. -/
def bestFitAux (c : RGBColor) :
    List RasterColorGroup → Nat → Option (Nat × Int) → Option (Nat × Int)
  | [], _, acc => acc
  | g :: rest, j, acc =>
    let d2 := colorDist2 c g.representativeColor
    let acc' := match acc with
      | none => some (j, d2)
      | some (bi, md) => if d2 < md then some (j, d2) else some (bi, md)
    bestFitAux c rest (j + 1) acc'

/-- Best-fit search over the whole group list. -/
def bestFit (c : RGBColor) (gs : List RasterColorGroup) : Option (Nat × Int) :=
  bestFitAux c gs 0 none

/-- A fully transparent output pixel (`createImageData` zero-fills). -/
def clearPixel : RGBA := ⟨0, 0, 0, 0⟩

/-- Per-pixel raster reconstruction of `ReassembledPreview` (lines 160–184):
alpha < 128 stays transparent; otherwise recolor to the best-fit group's
representative color when the minimum distance is under the threshold, else
transparent. -/
def reconstructPixel (gs : List RasterColorGroup) (tol : Nat) (p : RGBA) :
    RGBA :=
  if p.a < 128 then clearPixel
  else
    match bestFit ⟨p.r, p.g, p.b⟩ gs with
    | none => clearPixel
    | some (bi, md) =>
      if 400 * md < ((51 * tol : Nat) : Int) ^ 2 then
        let rc := (gs.getD bi dummyRasterGroup).representativeColor
        ⟨rc.r, rc.g, rc.b, 255⟩
      else clearPixel

/-- Whole-buffer raster reconstruction (the `ReassembledPreview` effect). -/
def reconstructImage (gs : List RasterColorGroup) (tol : Nat)
    (buf : List RGBA) : List RGBA :=
  buf.map (reconstructPixel gs tol)

/-- Structure `ImageDimensions` from `src/types.ts`.  The view box string is modeled
already split and `parseFloat`-ed: one `Option ℚ` token per whitespace/comma
field, `none` for a non-numeric token; the whole field is `none` when the
`viewBox` attribute is absent. -/
structure ImageDimensions where
  width : ℚ
  height : ℚ
  viewBox : Option (List (Option ℚ))
deriving DecidableEq, Repr

/-- JS array access `args[k]` on the parsed argument list: out-of-range
yields `undefined`, which (like `NaN`) is modeled as `none`. -/
def jArg (args : List (Option ℚ)) (k : Nat) : Option ℚ :=
  (args.get? k).bind id

/-- The geometric context of `transformSvgElements` once a usable view box
`(x, y, w, h)` is in hand (target canvas 600×600). -/
structure TransformCtx where
  x : ℚ
  y : ℚ
  w : ℚ
  h : ℚ
deriving DecidableEq, Repr

/-- The factor `scale = Math.min(targetWidth / w, targetHeight / h)`. -/
def TransformCtx.scale (c : TransformCtx) : ℚ := min (600 / c.w) (600 / c.h)

/-- Absolute x-coordinate rule: `(a - x) * scale + (targetWidth - w*scale)/2`. -/
def TransformCtx.absX (c : TransformCtx) (a : ℚ) : ℚ :=
  (a - c.x) * c.scale + (600 - c.w * c.scale) / 2

/-- Absolute y-coordinate rule: `(a - y) * scale + (targetHeight - h*scale)/2`. -/
def TransformCtx.absY (c : TransformCtx) (a : ℚ) : ℚ :=
  (a - c.y) * c.scale + (600 - c.h * c.scale) / 2

/-- The `default` case of the command switch: walk the arguments two at a
time (`for (i = 0; i < args.length; i += 2)`), transforming even positions
along x and odd positions along y; a trailing unpaired argument reads the
`undefined` `args[i+1]` (modeled `none`). -/
def transformPairs (fx fy : ℚ → ℚ) : List (Option ℚ) → List (Option ℚ)
  | [] => []
  | [a] => [a.map fx, none]
  | a :: b :: rest => a.map fx :: b.map fy :: transformPairs fx fy rest

/-- One path command under the transform of `transformSvgElements`
(lines 78–108): arcs scale the radii, pass rotation and flags through, and
transform only the first endpoint pair; `h`/`v` transform their single
coordinate; `z` passes through with no arguments; every other command is
treated as coordinate pairs.  Relative commands (lowercase letters) are
scaled only. -/
def transformCommand (c : TransformCtx) (cmd : PathCmd) : PathCmd :=
  let isRel := cmd.letter.toLower = cmd.letter
  let fx : ℚ → ℚ := fun a => if isRel then a * c.scale else c.absX a
  let fy : ℚ → ℚ := fun a => if isRel then a * c.scale else c.absY a
  if cmd.letter.toLower = 'z' then ⟨cmd.letter, []⟩
  else if cmd.letter.toLower = 'a' then
    ⟨cmd.letter,
      [(jArg cmd.args 0).map (· * c.scale), (jArg cmd.args 1).map (· * c.scale),
       jArg cmd.args 2, jArg cmd.args 3, jArg cmd.args 4,
       (jArg cmd.args 5).map fx, (jArg cmd.args 6).map fy]⟩
  else if cmd.letter.toLower = 'h' then ⟨cmd.letter, [(jArg cmd.args 0).map fx]⟩
  else if cmd.letter.toLower = 'v' then ⟨cmd.letter, [(jArg cmd.args 0).map fy]⟩
  else ⟨cmd.letter, transformPairs fx fy cmd.args⟩

/-- Per-element transform: rewrite the path data when the element has a `d`
attribute, and drop any `transform` attribute (`clone.removeAttribute`). -/
def transformElement (c : TransformCtx) (el : SvgElem) : SvgElem :=
  ⟨el.d.map (·.map (transformCommand c)), false⟩

/-- The fallback `dimensions.viewBox || "0 0 w h"` of the source: the fallback view box
used when the attribute is missing. -/
def effectiveViewBox (dm : ImageDimensions) : List (Option ℚ) :=
  dm.viewBox.getD [some 0, some 0, some dm.width, some dm.height]

/-- Function `transformSvgElements` from `src/App.tsx` (lines 56–116): emit the
elements unmodified when dimensions are absent, when the effective view box
is not four numeric tokens, or when its width or height is nonpositive;
otherwise transform every element. -/
def transformSvgElements (els : List SvgElem) (dims : Option ImageDimensions) :
    List SvgElem :=
  match dims with
  | none => els
  | some dm =>
    match effectiveViewBox dm with
    | [some x, some y, some w, some h] =>
      if w ≤ 0 ∨ h ≤ 0 then els
      else els.map (transformElement ⟨x, y, w, h⟩)
    | _ => els

/-- Index-aware `Array.prototype.filter((_, index) => p index)` starting at
index `k`. -/
def filterIdxFrom (p : Nat → Bool) : Nat → List α → List α
  | _, [] => []
  | k, x :: xs =>
    if p k then x :: filterIdxFrom p (k + 1) xs else filterIdxFrom p (k + 1) xs

/-- JS `Array.prototype.splice(n, 0, x)`: insert `x` at position `n` (clamped
to the length). -/
def spliceInsert (n : Nat) (x : α) (l : List α) : List α :=
  l.take n ++ x :: l.drop n

/-- JS `Math.min(...indices)` for the (guarded nonempty) merge selection. -/
def minList : List Nat → Nat
  | [] => 0
  | x :: xs => xs.foldl min x

/-- A default/junk group for out-of-range index accesses. -/
def dummyGroup : SVGColorGroup := ⟨⟨0, 0, 0⟩, []⟩

/-- The edit-relevant slice of `AppState` (vector variant; the raster
branch of the edit operations is structurally identical). -/
structure AppState where
  colorGroups : List SVGColorGroup
  deletedGroups : List (SVGColorGroup × Nat)
  reorderHistory : List (List SVGColorGroup)
  mergeHistory : List (List SVGColorGroup)
  selectedGroupIndices : List Nat
deriving DecidableEq, Repr

/-- Function `handleDeleteGroup` (lines 389–398): drop the group at the index, push
`(group, originalIndex)` onto the delete stack, clear the selection. -/
def handleDeleteGroup (i : Nat) (st : AppState) : AppState :=
  let groupToDelete := st.colorGroups.getD i dummyGroup
  { st with
    colorGroups := filterIdxFrom (fun k => decide (k ≠ i)) 0 st.colorGroups
    deletedGroups := st.deletedGroups ++ [(groupToDelete, i)]
    selectedGroupIndices := [] }

/-- Function `handleUndoDelete` (lines 400–410): pop the delete stack and re-insert
the group at `min(originalIndex, currentLength)`; no-op on an empty stack. -/
def handleUndoDelete (st : AppState) : AppState :=
  match st.deletedGroups.getLast? with
  | none => st
  | some last =>
    { st with
      colorGroups :=
        spliceInsert (min last.2 st.colorGroups.length) last.1 st.colorGroups
      deletedGroups := st.deletedGroups.dropLast }

/-- Function `handleUndoReorder` (lines 412–419): pop the reorder stack and replace
the list wholesale; no-op on an empty stack. -/
def handleUndoReorder (st : AppState) : AppState :=
  match st.reorderHistory.getLast? with
  | none => st
  | some lastState =>
    { st with
      colorGroups := lastState
      reorderHistory := st.reorderHistory.dropLast }

/-- The list-level core of `handleMergeGroups` (lines 520–550): primary
group = stable-sort-descending by shape count, merged elements concatenated
in selection order, selected groups removed, merged group spliced in at the
minimum selected index. -/
def mergeGroupList (indices : List Nat) (groups : List SVGColorGroup) :
    List SVGColorGroup :=
  let groupsToMerge := indices.map (fun i => groups.getD i dummyGroup)
  let primaryGroup :=
    (sortByDesc (fun g => g.elements.length) groupsToMerge).headD dummyGroup
  let allElements := groupsToMerge.flatMap (fun g => g.elements)
  let newMergedGroup : SVGColorGroup :=
    ⟨primaryGroup.representativeColor, allElements⟩
  let newColorGroups :=
    filterIdxFrom (fun k => !(indices.contains k)) 0 groups
  spliceInsert (minList indices) newMergedGroup newColorGroups

/-- Function `handleMergeGroups` (lines 520–560): guarded by `|selection| ≥ 2`;
pushes the pre-merge list onto the merge stack and discards the delete and
reorder stacks and the selection. -/
def handleMergeGroups (st : AppState) : AppState :=
  if st.selectedGroupIndices.length < 2 then st
  else
    { st with
      colorGroups := mergeGroupList st.selectedGroupIndices st.colorGroups
      mergeHistory := st.mergeHistory ++ [st.colorGroups]
      selectedGroupIndices := []
      deletedGroups := []
      reorderHistory := [] }

/-- Function `handleUndoMerge` (lines 562–569): pop the merge stack and replace the
list wholesale; no-op on an empty stack. -/
def handleUndoMerge (st : AppState) : AppState :=
  match st.mergeHistory.getLast? with
  | none => st
  | some lastState =>
    { st with
      colorGroups := lastState
      mergeHistory := st.mergeHistory.dropLast }

/-- The character class `[a-f\d]` of the `hexToRgb` regex (the `i` flag also
admits `A`–`F`).  JS strings are modeled as `List Char`. -/
def isHexDigitChar (c : Char) : Bool :=
  ('0' ≤ c ∧ c ≤ '9') ∨ ('a' ≤ c ∧ c ≤ 'f') ∨ ('A' ≤ c ∧ c ≤ 'F')

/-- The value of one hex digit, as `parseInt(·, 16)` reads it. -/
def hexDigitVal (c : Char) : Nat :=
  if '0' ≤ c ∧ c ≤ '9' then c.toNat - '0'.toNat
  else if 'a' ≤ c ∧ c ≤ 'f' then c.toNat - 'a'.toNat + 10
  else c.toNat - 'A'.toNat + 10

/-- Function `hexToRgb` from `colorUtils.ts`: the regex
`/^#?([a-f\d]{2})([a-f\d]{2})([a-f\d]{2})$/i` — an optional `#` followed by
exactly six hex digits; anything else gives `null`. -/
def hexToRgb (s : List Char) : Option RGBColor :=
  let cs := match s with
    | '#' :: rest => rest
    | _ => s
  match cs with
  | [h1, h2, h3, h4, h5, h6] =>
    if [h1, h2, h3, h4, h5, h6].all isHexDigitChar then
      some ⟨16 * hexDigitVal h1 + hexDigitVal h2,
            16 * hexDigitVal h3 + hexDigitVal h4,
            16 * hexDigitVal h5 + hexDigitVal h6⟩
    else none
  | _ => none

/-- The digit-run extraction `colorStr.match(/(\d+)/g)` (with
`parseInt(·, 10)` applied): maximal runs of decimal digits, as numbers.
`cur` is the value of the run currently being read. -/
def digitRuns (cur : Option Nat) : List Char → List Nat
  | [] => match cur with
    | none => []
    | some n => [n]
  | c :: rest =>
    if c.isDigit then
      digitRuns (some ((cur.getD 0) * 10 + (c.toNat - '0'.toNat))) rest
    else match cur with
      | none => digitRuns none rest
      | some n => n :: digitRuns none rest

/-- Function `parseColorString` from `colorUtils.ts`.  The DOM fallback for named
colors (a hidden element plus `getComputedStyle`) is a host facility and is
modeled as the injected capability `resolveNamed`. -/
def parseColorString (resolveNamed : List Char → Option RGBColor)
    (s : List Char) : Option RGBColor :=
  if s = [] ∨ s.map Char.toLower = ['n', 'o', 'n', 'e'] then none
  else if s.head? = some '#' then hexToRgb s
  else if s.take 3 = ['r', 'g', 'b'] then
    let parts := digitRuns none s
    if 3 ≤ parts.length then
      some ⟨parts.getD 0 0, parts.getD 1 0, parts.getD 2 0⟩
    else resolveNamed s
  else resolveNamed s

/-! Concrete inputs used by counterexamples and witnesses. -/

/-- A geometry-free placeholder element. -/
def dummyElem : SvgElem := ⟨none, false⟩

/-- A shape that is only its fill color. -/
def shapeOf (c : RGBColor) : SVGPathData := ⟨c, dummyElem⟩

/-- Four shapes refuting monotone coarsening of the largest group: at
tolerance 20 the groups are `{P}` and `{S, M1, M2}` (largest 3), at
tolerance 40 they are `{P, S}` and `{M1, M2}` (largest 2). -/
def coarseningShapes : List SVGPathData :=
  [shapeOf ⟨0, 100, 0⟩, shapeOf ⟨99, 100, 0⟩,
   shapeOf ⟨99, 149, 0⟩, shapeOf ⟨99, 51, 0⟩]

/-- The size of the largest group of a decomposition. -/
def largestGroupSize (gs : List SVGColorGroup) : Nat :=
  (gs.map (fun g => g.elements.length)).foldr max 0

/-- The size of the first (earliest-created) group. -/
def firstGroupSize (tol : Nat) (paths : List SVGPathData) : Nat :=
  ((clusterSVG tol paths).headD dummyGroup).elements.length

/-- A path element `M 10 10`, used to show that a missing view box with
positive width/height does not skip normalization. -/
def moveToElem : SvgElem := ⟨some [⟨'M', [some 10, some 10]⟩], false⟩

/-- Dimensions with `viewBox: null` but positive width 100 and height 50. -/
def noViewBoxDims : ImageDimensions := ⟨100, 50, none⟩

/-- An absolute arc command carrying two 7-argument groups (14 numbers). -/
def twoGroupArcElem : SvgElem :=
  ⟨some [⟨'A', [some 10, some 20, some 45, some 1, some 0, some 30, some 40,
                some 50, some 60, some 0, some 0, some 1, some 70, some 80]⟩],
   false⟩

/-- Dimensions whose view box `0 0 100 100` gives scale 6 and no centering
offset. -/
def squareDims : ImageDimensions :=
  ⟨100, 100, some [some 0, some 0, some 100, some 100]⟩

/-- Returns `true` exactly when `transformSvgElements` would skip normalization for
these parsed view-box tokens: not a 4-tuple of numbers, or nonpositive
width/height. -/
def isDegenerateViewBox : List (Option ℚ) → Bool
  | [some _, some _, some w, some h] => decide (w ≤ 0 ∨ h ≤ 0)
  | _ => true

/-- Groups of sizes 1, 3, 1 used to instantiate the merge theorem. -/
def mergeDemoGroups : List SVGColorGroup :=
  [⟨⟨1, 1, 1⟩, [shapeOf ⟨1, 1, 1⟩]⟩,
   ⟨⟨2, 2, 2⟩, [shapeOf ⟨2, 2, 2⟩, shapeOf ⟨3, 3, 3⟩, shapeOf ⟨4, 4, 4⟩]⟩,
   ⟨⟨5, 5, 5⟩, [shapeOf ⟨5, 5, 5⟩]⟩]

/-- A state whose merge stack holds an empty snapshot while index 0 is
selected: after `undoMerge` the selection still holds 0, which no longer
refers to any group. -/
def staleSelectionState : AppState :=
  ⟨[dummyGroup], [], [], [[]], [0]⟩

/-- The best-fit behavior of raster reconstruction at pixel `k` of `buf`
(the spec's description of `ReassembledPreview`): transparent below
alpha 128 or with no groups; otherwise there is a group index at minimum
squared RGB distance over *all* groups whose representative color is taken
when the minimum clears the threshold, transparency otherwise. -/
def BestFitReconstruction (gs : List RasterColorGroup) (tol : Nat)
    (buf : List RGBA) (k : Nat) : Prop :=
  ((buf.getD k clearPixel).a < 128 →
    (reconstructImage gs tol buf).getD k clearPixel = clearPixel) ∧
  (128 ≤ (buf.getD k clearPixel).a → gs = [] →
    (reconstructImage gs tol buf).getD k clearPixel = clearPixel) ∧
  (128 ≤ (buf.getD k clearPixel).a → gs ≠ [] →
    ∃ bi, bi < gs.length ∧
      (∀ m, m < gs.length →
        colorDist2 ⟨(buf.getD k clearPixel).r, (buf.getD k clearPixel).g,
            (buf.getD k clearPixel).b⟩
          ((gs.getD bi dummyRasterGroup).representativeColor) ≤
        colorDist2 ⟨(buf.getD k clearPixel).r, (buf.getD k clearPixel).g,
            (buf.getD k clearPixel).b⟩
          ((gs.getD m dummyRasterGroup).representativeColor)) ∧
      (400 * colorDist2 ⟨(buf.getD k clearPixel).r, (buf.getD k clearPixel).g,
            (buf.getD k clearPixel).b⟩
          ((gs.getD bi dummyRasterGroup).representativeColor) <
          ((51 * tol : Nat) : Int) ^ 2 →
        (reconstructImage gs tol buf).getD k clearPixel =
          ⟨(gs.getD bi dummyRasterGroup).representativeColor.r,
           (gs.getD bi dummyRasterGroup).representativeColor.g,
           (gs.getD bi dummyRasterGroup).representativeColor.b, 255⟩) ∧
      (¬(400 * colorDist2 ⟨(buf.getD k clearPixel).r, (buf.getD k clearPixel).g,
            (buf.getD k clearPixel).b⟩
          ((gs.getD bi dummyRasterGroup).representativeColor) <
          ((51 * tol : Nat) : Int) ^ 2) →
        (reconstructImage gs tol buf).getD k clearPixel = clearPixel))

/-- A two-group raster decomposition used to instantiate C8. -/
def demoRasterGroups : List RasterColorGroup :=
  [⟨⟨10, 10, 10⟩, [⟨10, 10, 10⟩], 2⟩, ⟨⟨200, 0, 0⟩, [⟨200, 0, 0⟩], 1⟩]

/-- A one-pixel opaque red buffer used to instantiate C8. -/
def demoBuf : List RGBA := [⟨200, 0, 0, 255⟩]

/-- All shapes stored in a group list, in group order. -/
def groupsShapes (gs : List SVGColorGroup) : List SVGPathData :=
  gs.flatMap (fun g => g.elements)

/-! List bookkeeping lemmas for the index-aware filter and splice. -/

theorem filterIdxFrom_shift (p : Nat → Bool) :
    ∀ (l : List α) (k : Nat),
      filterIdxFrom p (k + 1) l = filterIdxFrom (fun t => p (t + 1)) k l := by
  intro l
  induction l with
  | nil => intro k; rfl
  | cons x xs ih =>
    intro k
    simp only [filterIdxFrom]
    rw [ih (k + 1)]

theorem filterIdxFrom_all (p : Nat → Bool) (hp : ∀ t, p t = true) :
    ∀ (l : List α) (k : Nat), filterIdxFrom p k l = l := by
  intro l
  induction l with
  | nil => intro k; rfl
  | cons x xs ih =>
    intro k
    simp only [filterIdxFrom, hp k, if_pos]
    rw [ih (k + 1)]

theorem filterIdxFrom_remove_one :
    ∀ (l : List α) (m : Nat),
      filterIdxFrom (fun k => decide (k ≠ m)) 0 l = l.take m ++ l.drop (m + 1) := by
  intro l
  induction l with
  | nil => intro m; simp [filterIdxFrom]
  | cons x xs ih =>
    intro m
    cases m with
    | zero =>
      simp only [filterIdxFrom, decide_eq_true_eq]
      rw [if_neg (by simp), filterIdxFrom_shift]
      have hfun : (fun t => decide (t + 1 ≠ 0)) = (fun _ : Nat => true) := by
        funext t; simp
      rw [hfun, filterIdxFrom_all _ (fun _ => rfl)]
      simp
    | succ n =>
      simp only [filterIdxFrom]
      rw [if_pos (by simp), filterIdxFrom_shift]
      have hfun : (fun t => decide (t + 1 ≠ n + 1)) = (fun t : Nat => decide (t ≠ n)) := by
        funext t; simp
      rw [hfun, ih n]
      simp

theorem filterIdxFrom_remove_two :
    ∀ (l : List α) (a b : Nat), a < b →
      filterIdxFrom (fun k => !(decide (k = a) || decide (k = b))) 0 l =
        l.take a ++ (l.drop (a + 1)).take (b - a - 1) ++ l.drop (b + 1) := by
  intro l
  induction l with
  | nil => intro a b _; simp [filterIdxFrom]
  | cons x xs ih =>
    intro a b hab
    cases a with
    | zero =>
      obtain ⟨n, rfl⟩ : ∃ n, b = n + 1 := ⟨b - 1, by omega⟩
      simp only [filterIdxFrom]
      rw [if_neg (by simp), filterIdxFrom_shift]
      have hfun : (fun t => !(decide (t + 1 = 0) || decide (t + 1 = n + 1))) =
          (fun t : Nat => decide (t ≠ n)) := by
        funext t; simp
      rw [hfun, filterIdxFrom_remove_one]
      simp
    | succ a' =>
      obtain ⟨b', rfl⟩ : ∃ b', b = b' + 1 := ⟨b - 1, by omega⟩
      simp only [filterIdxFrom]
      rw [if_pos (by simp), filterIdxFrom_shift]
      have hfun : (fun t => !(decide (t + 1 = a' + 1) || decide (t + 1 = b' + 1))) =
          (fun t : Nat => !(decide (t = a') || decide (t = b'))) := by
        funext t; simp
      rw [hfun, ih a' b' (by omega)]
      simp [Nat.succ_sub_succ]

theorem getD_append_cons (A : List α) (x : α) (r : List α) (d : α) :
    (A ++ x :: r).getD A.length d = x := by
  induction A with
  | nil => rfl
  | cons a as ih => simpa using ih

theorem take_getD_drop :
    ∀ (l : List α) (i : Nat) (d : α), i < l.length →
      l.take i ++ l.getD i d :: l.drop (i + 1) = l := by
  intro l
  induction l with
  | nil => intro i d h; simp at h
  | cons x xs ih =>
    intro i d h
    cases i with
    | zero => simp [List.getD]
    | succ n =>
      simp only [List.take_succ_cons, List.drop_succ_cons, List.getD_cons_succ,
        List.cons_append, List.cons.injEq, true_and]
      exact ih n d (by simpa using h)

/-! ### C2 — the vector clustering partitions the input shapes -/

theorem groupsShapes_place (tol : Nat) (p : SVGPathData) :
    ∀ gs : List SVGColorGroup,
      (groupsShapes (placeSVG tol gs p)).Perm (groupsShapes gs ++ [p]) := by
  intro gs
  induction gs with
  | nil => simp [placeSVG, groupsShapes]
  | cons g rest ih =>
    by_cases h : nearColor tol p.color g.representativeColor
    · simp only [placeSVG, if_pos h, groupsShapes, List.flatMap_cons]
      rw [List.append_assoc, List.append_assoc]
      exact List.Perm.append_left _ List.perm_append_comm
    · simp only [placeSVG, if_neg h, groupsShapes, List.flatMap_cons]
      rw [List.append_assoc]
      exact List.Perm.append_left _ ih

theorem groupsShapes_foldl_place (tol : Nat) :
    ∀ (l : List SVGPathData) (acc : List SVGColorGroup),
      (groupsShapes (l.foldl (placeSVG tol) acc)).Perm (groupsShapes acc ++ l) := by
  intro l
  induction l with
  | nil => intro acc; simp
  | cons p ps ih =>
    intro acc
    rw [List.foldl_cons]
    refine (ih (placeSVG tol acc p)).trans ?_
    have h1 := List.Perm.append_right ps (groupsShapes_place tol p acc)
    refine h1.trans ?_
    simp

/-- C2 (confirmed).  For every input shape list and tolerance, the shapes
stored across the output groups of the first-fit vector clustering are a
permutation of the input list: no shape is duplicated and none is dropped —
the groups partition the input. -/
theorem svg_clustering_partitions (tol : Nat) (paths : List SVGPathData) :
    (groupsShapes (clusterSVG tol paths)).Perm paths := by
  have h := groupsShapes_foldl_place tol paths []
  simpa [clusterSVG, groupsShapes] using h

/-! ### C3 — tolerance coarsening -/

theorem nearColor_mono {t1 t2 : Nat} (h : t1 ≤ t2) (c1 c2 : RGBColor)
    (hn : nearColor t1 c1 c2 = true) : nearColor t2 c1 c2 = true := by
  simp only [nearColor, decide_eq_true_eq] at hn ⊢
  have hmul : (51 * t1 : Nat) ≤ (51 * t2 : Nat) := Nat.mul_le_mul_left _ h
  have hle : ((51 * t1 : Nat) : Int) ^ 2 ≤ ((51 * t2 : Nat) : Int) ^ 2 :=
    pow_le_pow_left₀ (by positivity) (by exact_mod_cast hmul) 2
  exact lt_of_lt_of_le hn hle

theorem length_filter_le_of_imp (p q : α → Bool)
    (h : ∀ a, p a = true → q a = true) :
    ∀ l : List α, (l.filter p).length ≤ (l.filter q).length := by
  intro l
  induction l with
  | nil => simp
  | cons x xs ih =>
    rw [List.filter_cons, List.filter_cons]
    by_cases hp : p x = true
    · rw [if_pos hp, if_pos (h x hp)]
      simpa using ih
    · rw [if_neg hp]
      split
      · exact Nat.le_succ_of_le ih
      · exact ih

theorem foldl_place_head (tol : Nat) :
    ∀ (l : List SVGPathData) (rep : RGBColor) (els : List SVGPathData)
      (rest : List SVGColorGroup),
      ∃ rest', l.foldl (placeSVG tol) (⟨rep, els⟩ :: rest) =
        ⟨rep, els ++ l.filter (fun q => nearColor tol q.color rep)⟩ :: rest' := by
  intro l
  induction l with
  | nil => intro rep els rest; exact ⟨rest, by simp⟩
  | cons p ps ih =>
    intro rep els rest
    rw [List.foldl_cons]
    by_cases h : nearColor tol p.color rep
    · simp only [placeSVG, if_pos h]
      obtain ⟨rest', hr⟩ := ih rep (els ++ [p]) rest
      refine ⟨rest', ?_⟩
      rw [hr, List.filter_cons, if_pos h]
      simp
    · simp only [placeSVG, if_neg h]
      obtain ⟨rest', hr⟩ := ih rep els (placeSVG tol rest p)
      refine ⟨rest', ?_⟩
      rw [hr, List.filter_cons, if_neg h]

theorem firstGroupSize_cons (tol : Nat) (p : SVGPathData) (ps : List SVGPathData) :
    firstGroupSize tol (p :: ps) =
      1 + (ps.filter (fun q => nearColor tol q.color p.color)).length := by
  unfold firstGroupSize clusterSVG
  rw [List.foldl_cons]
  have hplace : placeSVG tol [] p = [⟨p.color, [p]⟩] := rfl
  rw [hplace]
  obtain ⟨rest', hr⟩ := foldl_place_head tol ps p.color [p] []
  rw [hr]
  simp [Nat.add_comm]

/-- C3 (amended).  Increasing the tolerance never decreases the size of the
*first* (earliest-created) group: that group's representative is always the
first shape's color, and membership in it is monotone in the threshold.
(The size of the *largest* group is not monotone — see the
counterexample.) -/
theorem first_group_size_monotone (paths : List SVGPathData) (t1 t2 : Nat)
    (h : t1 ≤ t2) : firstGroupSize t1 paths ≤ firstGroupSize t2 paths := by
  cases paths with
  | nil => exact Nat.le_refl _
  | cons p ps =>
    rw [firstGroupSize_cons, firstGroupSize_cons]
    have hf : (ps.filter (fun q => nearColor t1 q.color p.color)).length ≤
        (ps.filter (fun q => nearColor t2 q.color p.color)).length :=
      length_filter_le_of_imp _ _ (fun q hq => nearColor_mono h _ _ hq) ps
    exact Nat.add_le_add_left hf 1

/-- Witness for the amended C3 at a concrete input. -/
theorem first_group_size_monotone_witness :
    firstGroupSize 20 coarseningShapes ≤ firstGroupSize 40 coarseningShapes :=
  first_group_size_monotone coarseningShapes 20 40 (by decide)

/-- C3 (counterexample).  For the fixed four-shape input
`coarseningShapes` and tolerances 20 ≤ 40, the largest group shrinks from 3
shapes to 2: first-fit clustering is not monotonically coarsening. -/
theorem largest_group_not_monotone :
    (20 : Nat) ≤ 40 ∧
    largestGroupSize (clusterSVG 20 coarseningShapes) = 3 ∧
    largestGroupSize (clusterSVG 40 coarseningShapes) = 2 := by
  decide

/-! ### C10 — undo operations leave the selection unchanged -/

/-- C10 (confirmed).  `undoDelete`, `undoReorder` and `undoMerge` never
touch the selection, even though they change the group list; in the state
`staleSelectionState` the surviving selected index 0 refers to no group at
all after `undoMerge` (the restored list is empty). -/
theorem undo_preserves_selection :
    (∀ st : AppState,
      (handleUndoDelete st).selectedGroupIndices = st.selectedGroupIndices ∧
      (handleUndoReorder st).selectedGroupIndices = st.selectedGroupIndices ∧
      (handleUndoMerge st).selectedGroupIndices = st.selectedGroupIndices) ∧
    staleSelectionState.selectedGroupIndices = [0] ∧
    (handleUndoMerge staleSelectionState).selectedGroupIndices = [0] ∧
    (handleUndoMerge staleSelectionState).colorGroups.length = 0 := by
  refine ⟨fun st => ⟨?_, ?_, ?_⟩, by decide, by decide, by decide⟩
  · unfold handleUndoDelete
    cases st.deletedGroups.getLast? <;> rfl
  · unfold handleUndoReorder
    cases st.reorderHistory.getLast? <;> rfl
  · unfold handleUndoMerge
    cases st.mergeHistory.getLast? <;> rfl

/-! ### C7 — delete followed by undoDelete restores the list -/

/-- C7 (confirmed).  For every valid index, `undoDelete` right after
`delete(i)` (no other mutation in between) restores exactly the original
group list, in content and order. -/
theorem delete_then_undo_restores (st : AppState) (i : Nat)
    (hi : i < st.colorGroups.length) :
    (handleUndoDelete (handleDeleteGroup i st)).colorGroups = st.colorGroups := by
  unfold handleDeleteGroup handleUndoDelete
  simp only [List.getLast?_concat]
  rw [filterIdxFrom_remove_one]
  have hlen : (st.colorGroups.take i ++ st.colorGroups.drop (i + 1)).length =
      st.colorGroups.length - 1 := by
    simp only [List.length_append, List.length_take, List.length_drop]
    omega
  rw [hlen]
  have hmin : min i (st.colorGroups.length - 1) = i := by omega
  rw [hmin]
  unfold spliceInsert
  have htake : (st.colorGroups.take i).length = i := by
    simp only [List.length_take]
    omega
  rw [List.take_left' htake, List.drop_left' htake]
  exact take_getD_drop st.colorGroups i dummyGroup hi

/-- Witness for C7 at a concrete state. -/
theorem delete_then_undo_restores_witness :
    (handleUndoDelete (handleDeleteGroup 1 ⟨mergeDemoGroups, [], [], [], [0]⟩)).colorGroups =
      mergeDemoGroups :=
  delete_then_undo_restores ⟨mergeDemoGroups, [], [], [], [0]⟩ 1 (by decide)

/-! ### C1 — the pure-white remap -/

theorem ingestShape_ne_white (el : RawSvgShape) (p : SVGPathData)
    (h : ingestShape el = some p) : p.color ≠ pureWhite := by
  simp only [ingestShape] at h
  split at h
  · rw [Option.map_eq_some'] at h
    obtain ⟨c, hc, hp⟩ := h
    subst hp
    split at hc
    · cases hc
      show offWhite ≠ pureWhite
      decide
    · next hne =>
      show c ≠ pureWhite
      intro h'
      subst h'
      exact hne hc
  · cases h

theorem placeSVG_no_white (tol : Nat) (x : SVGPathData) (hx : x.color ≠ pureWhite) :
    ∀ gs : List SVGColorGroup,
      (∀ g ∈ gs, g.representativeColor ≠ pureWhite ∧
        ∀ p ∈ g.elements, p.color ≠ pureWhite) →
      ∀ g ∈ placeSVG tol gs x, g.representativeColor ≠ pureWhite ∧
        ∀ p ∈ g.elements, p.color ≠ pureWhite := by
  intro gs
  induction gs with
  | nil =>
    intro _ g hg
    simp only [placeSVG, List.mem_singleton] at hg
    subst hg
    exact ⟨hx, by simpa using hx⟩
  | cons g0 rest ih =>
    intro hinv g hg
    by_cases h : nearColor tol x.color g0.representativeColor
    · simp only [placeSVG, if_pos h] at hg
      rcases List.mem_cons.mp hg with rfl | hmem
      · obtain ⟨h1, h2⟩ := hinv g0 (List.mem_cons_self _ _)
        refine ⟨h1, ?_⟩
        intro p hp
        rcases List.mem_append.mp hp with hp | hp
        · exact h2 p hp
        · rw [List.mem_singleton.mp hp]; exact hx
      · exact hinv g (List.mem_cons_of_mem _ hmem)
    · simp only [placeSVG, if_neg h] at hg
      rcases List.mem_cons.mp hg with rfl | hmem
      · exact hinv g (List.mem_cons_self _ _)
      · exact ih (fun g' hg' => hinv g' (List.mem_cons_of_mem _ hg')) g hmem

theorem foldl_place_no_white (tol : Nat) :
    ∀ (l : List SVGPathData), (∀ x ∈ l, x.color ≠ pureWhite) →
      ∀ (acc : List SVGColorGroup),
        (∀ g ∈ acc, g.representativeColor ≠ pureWhite ∧
          ∀ p ∈ g.elements, p.color ≠ pureWhite) →
        ∀ g ∈ l.foldl (placeSVG tol) acc, g.representativeColor ≠ pureWhite ∧
          ∀ p ∈ g.elements, p.color ≠ pureWhite := by
  intro l
  induction l with
  | nil => intro _ acc hacc; simpa using hacc
  | cons x xs ih =>
    intro hl acc hacc
    rw [List.foldl_cons]
    exact ih (fun q hq => hl q (List.mem_cons_of_mem _ hq))
      (placeSVG tol acc x)
      (placeSVG_no_white tol x (hl x (List.mem_cons_self _ _)) acc hacc)

/-- C1 (amended).  After *vector* ingestion, pure white never appears as a
representative or member color of any group: `processSVG` remaps every white
fill to `(247,247,247)` before clustering.  (Raster ingestion performs no
such remap — see the counterexample.) -/
theorem svg_groups_never_white (els : List RawSvgShape) (tol : Nat)
    (g : SVGColorGroup) (hg : g ∈ processSVGGroups els tol) :
    g.representativeColor ≠ pureWhite ∧
      ∀ p ∈ g.elements, p.color ≠ pureWhite := by
  refine foldl_place_no_white tol (els.filterMap ingestShape) ?_ [] (by simp) g hg
  intro x hx
  obtain ⟨el, _, hel⟩ := List.mem_filterMap.mp hx
  exact ingestShape_ne_white el x hel

/-- Witness for the amended C1: a single white shape is ingested as
`(247,247,247)`. -/
theorem svg_groups_never_white_witness :
    (⟨offWhite, [⟨offWhite, dummyElem⟩]⟩ : SVGColorGroup).representativeColor ≠ pureWhite ∧
      ∀ p ∈ (⟨offWhite, [⟨offWhite, dummyElem⟩]⟩ : SVGColorGroup).elements,
        p.color ≠ pureWhite :=
  svg_groups_never_white [⟨some pureWhite, none, dummyElem⟩] 20
    ⟨offWhite, [⟨offWhite, dummyElem⟩]⟩ (by decide)

/-- C1 (counterexample).  Raster ingestion does not remap white: a buffer
holding one opaque pure-white pixel produces a group whose representative
(and sole member) color is `(255,255,255)`. -/
theorem raster_white_survives :
    processRasterGroups [⟨255, 255, 255, 255⟩] 20 =
      [⟨pureWhite, [pureWhite], 1⟩] := by
  decide

/-! ### C5 — hex color parsing -/

/-- C5 (amended).  `parseColor` returns the channel values for every valid
*6-digit* `#rrggbb` hex string.  (3-digit `#rgb` strings fail the regex and
give `none` — see the counterexample.) -/
theorem parse_six_digit_hex (resolveNamed : List Char → Option RGBColor)
    (h1 h2 h3 h4 h5 h6 : Char)
    (hhex : [h1, h2, h3, h4, h5, h6].all isHexDigitChar = true) :
    parseColorString resolveNamed ('#' :: [h1, h2, h3, h4, h5, h6]) =
      some ⟨16 * hexDigitVal h1 + hexDigitVal h2,
            16 * hexDigitVal h3 + hexDigitVal h4,
            16 * hexDigitVal h5 + hexDigitVal h6⟩ := by
  have hne : ¬(('#' :: [h1, h2, h3, h4, h5, h6]) = ([] : List Char) ∨
      ('#' :: [h1, h2, h3, h4, h5, h6]).map Char.toLower = ['n', 'o', 'n', 'e']) := by
    rintro (h | h)
    · cases h
    · have hlen := congrArg List.length h
      simp at hlen
  unfold parseColorString
  rw [if_neg hne,
    if_pos (show ('#' :: [h1, h2, h3, h4, h5, h6]).head? = some '#' from rfl)]
  show (if ([h1, h2, h3, h4, h5, h6].all isHexDigitChar) = true then
      some (⟨16 * hexDigitVal h1 + hexDigitVal h2,
            16 * hexDigitVal h3 + hexDigitVal h4,
            16 * hexDigitVal h5 + hexDigitVal h6⟩ : RGBColor)
    else none) = _
  rw [if_pos hhex]

/-- Witness for the amended C5: `"#1A2b3C"` parses to `(26, 43, 60)`. -/
theorem parse_six_digit_hex_witness :
    parseColorString (fun _ => none) ['#', '1', 'A', '2', 'b', '3', 'C'] =
      some ⟨26, 43, 60⟩ := by
  have h := parse_six_digit_hex (fun _ => none) '1' 'A' '2' 'b' '3' 'C' (by decide)
  rw [h]
  decide

/-- C5 (counterexample).  The hex regex demands exactly six digits, so the
valid 3-digit form `#fff` is not parsed: the result is `none`, not
`(255,255,255)`. -/
theorem three_digit_hex_rejected :
    parseColorString (fun _ => none) ['#', 'f', 'f', 'f'] = none ∧
    parseColorString (fun _ => none) ['#', 'f', 'f', 'f'] ≠ some pureWhite := by
  decide

/-! ### C4 — skipped normalization -/

/-- C4 (amended).  Normalization is skipped — the shapes are emitted
unmodified — when the dimensions are absent, or when the *effective* view
box (the explicit one, else the fallback `0 0 width height`) is not four
numeric tokens or has nonpositive width/height.  (A merely missing view box
with positive width/height instead normalizes via the fallback — see the
counterexample.) -/
theorem transform_skips_on_degenerate (els : List SvgElem)
    (dims : Option ImageDimensions)
    (h : dims = none ∨ ∃ dm, dims = some dm ∧
      isDegenerateViewBox (effectiveViewBox dm) = true) :
    transformSvgElements els dims = els := by
  rcases h with rfl | ⟨dm, rfl, hdeg⟩
  · rfl
  · have hred : transformSvgElements els (some dm) =
        match effectiveViewBox dm with
        | [some x, some y, some w, some h] =>
          if w ≤ 0 ∨ h ≤ 0 then els else els.map (transformElement ⟨x, y, w, h⟩)
        | _ => els := rfl
    rw [hred]
    split
    · rename_i x y w h' heq
      rw [heq] at hdeg
      simp only [isDegenerateViewBox, decide_eq_true_eq] at hdeg
      rw [if_pos hdeg]
    · rfl

/-- Witness for the amended C4: height 0 makes the fallback view box
degenerate, so the element passes through unmodified. -/
theorem transform_skips_witness :
    transformSvgElements [moveToElem] (some ⟨100, 0, none⟩) = [moveToElem] :=
  transform_skips_on_degenerate [moveToElem] (some ⟨100, 0, none⟩)
    (Or.inr ⟨⟨100, 0, none⟩, rfl, by simp [isDegenerateViewBox, effectiveViewBox]⟩)

/-- C4 (counterexample).  With the view box *missing* but width 100 and
height 50 positive, normalization is **not** skipped: the fallback view box
`0 0 100 50` gives scale 6 and the point (10,10) moves to (60,210). -/
theorem missing_viewbox_still_normalizes :
    transformSvgElements [moveToElem] (some noViewBoxDims) =
      [⟨some [⟨'M', [some 60, some 210]⟩], false⟩] ∧
    transformSvgElements [moveToElem] (some noViewBoxDims) ≠ [moveToElem] := by
  constructor <;>
  · norm_num [transformSvgElements, effectiveViewBox, noViewBoxDims, moveToElem,
      transformElement, transformCommand, transformPairs, jArg,
      TransformCtx.scale, TransformCtx.absX, TransformCtx.absY, min_def]
    decide

/-! ### C9 — elliptical-arc argument handling -/

/-- C9 (amended).  For an arc command the *first* 7-argument group is
transformed as specified — radii scaled, rotation and both flags passed
through, endpoint translated (absolute) or scaled (relative) — but the
output carries exactly these 7 arguments: any further 7-argument groups on
the same command are dropped (see the counterexample). -/
theorem arc_first_group_transform (c : TransformCtx) (r1 r2 rot f1 f2 px py : ℚ)
    (rest : List (Option ℚ)) :
    transformCommand c ⟨'A', some r1 :: some r2 :: some rot :: some f1 ::
        some f2 :: some px :: some py :: rest⟩ =
      ⟨'A', [some (r1 * c.scale), some (r2 * c.scale), some rot, some f1,
             some f2, some (c.absX px), some (c.absY py)]⟩ ∧
    transformCommand c ⟨'a', some r1 :: some r2 :: some rot :: some f1 ::
        some f2 :: some px :: some py :: rest⟩ =
      ⟨'a', [some (r1 * c.scale), some (r2 * c.scale), some rot, some f1,
             some f2, some (px * c.scale), some (py * c.scale)]⟩ := by
  constructor
  · simp only [transformCommand]
    rw [if_neg (by decide), if_pos (by decide)]
    simp only [jArg, List.get?, Option.some_bind, id_eq, Option.map_some']
    rw [if_neg (by decide), if_neg (by decide)]
  · simp only [transformCommand]
    rw [if_neg (by decide), if_pos (by decide)]
    simp only [jArg, List.get?, Option.some_bind, id_eq, Option.map_some']
    rw [if_pos (by decide), if_pos (by decide)]

/-- C9 (counterexample).  An absolute arc command carrying two 7-argument
groups (14 numbers) comes out of normalization with only 7 arguments: the
entire second group is dropped, contradicting "no argument dropped". -/
theorem arc_second_group_dropped :
    transformSvgElements [twoGroupArcElem] (some squareDims) =
      [⟨some [⟨'A', [some 60, some 120, some 45, some 1, some 0,
                     some 180, some 240]⟩], false⟩] ∧
    ((twoGroupArcElem.d.getD []).flatMap (fun cmd => cmd.args)).length = 14 := by
  refine ⟨?_, by decide⟩
  norm_num [transformSvgElements, effectiveViewBox, squareDims, twoGroupArcElem,
    transformElement, transformCommand, transformPairs, jArg,
    TransformCtx.scale, TransformCtx.absX, TransformCtx.absY, min_def]
  decide

/-! ### C8 — raster reconstruction is best-fit -/

theorem getD_map_of_lt (f : α → β) (d : β) (d' : α) :
    ∀ (l : List α) (k : Nat), k < l.length →
      (l.map f).getD k d = f (l.getD k d') := by
  intro l
  induction l with
  | nil => intro k hk; simp at hk
  | cons x xs ih =>
    intro k hk
    cases k with
    | zero => simp
    | succ n =>
      simp only [List.map_cons, List.getD_cons_succ]
      exact ih n (by simpa using hk)

theorem bestFitAux_spec (c : RGBColor) :
    ∀ (l : List RasterColorGroup) (j bi : Nat) (md : Int),
      ∃ bi' md', bestFitAux c l j (some (bi, md)) = some (bi', md') ∧
        md' ≤ md ∧
        ((bi' = bi ∧ md' = md) ∨ ∃ k, k < l.length ∧ bi' = j + k ∧
          md' = colorDist2 c ((l.getD k dummyRasterGroup).representativeColor)) ∧
        (∀ k, k < l.length →
          md' ≤ colorDist2 c ((l.getD k dummyRasterGroup).representativeColor)) := by
  intro l
  induction l with
  | nil =>
    intro j bi md
    exact ⟨bi, md, rfl, le_refl _, Or.inl ⟨rfl, rfl⟩,
      fun k hk => absurd hk (by simp)⟩
  | cons g rest ih =>
    intro j bi md
    by_cases hd : colorDist2 c g.representativeColor < md
    · have hstep : bestFitAux c (g :: rest) j (some (bi, md)) =
          bestFitAux c rest (j + 1) (some (j, colorDist2 c g.representativeColor)) := by
        simp [bestFitAux, hd]
      obtain ⟨bi', md', heq, hle, horig, hmin⟩ :=
        ih (j + 1) j (colorDist2 c g.representativeColor)
      refine ⟨bi', md', hstep ▸ heq, le_trans hle (le_of_lt hd), ?_, ?_⟩
      · rcases horig with ⟨rfl, rfl⟩ | ⟨k, hk, rfl, hmd⟩
        · exact Or.inr ⟨0, by simp, by omega, by simp⟩
        · exact Or.inr ⟨k + 1, by simpa using hk, by omega, by simpa using hmd⟩
      · intro k hk
        cases k with
        | zero => simpa using hle
        | succ n =>
          have := hmin n (by simpa using hk)
          simpa using this
    · have hstep : bestFitAux c (g :: rest) j (some (bi, md)) =
          bestFitAux c rest (j + 1) (some (bi, md)) := by
        simp [bestFitAux, hd]
      obtain ⟨bi', md', heq, hle, horig, hmin⟩ := ih (j + 1) bi md
      refine ⟨bi', md', hstep ▸ heq, hle, ?_, ?_⟩
      · rcases horig with ⟨rfl, rfl⟩ | ⟨k, hk, rfl, hmd⟩
        · exact Or.inl ⟨rfl, rfl⟩
        · exact Or.inr ⟨k + 1, by simpa using hk, by omega, by simpa using hmd⟩
      · intro k hk
        cases k with
        | zero =>
          have hmd0 : md ≤ colorDist2 c g.representativeColor := le_of_not_lt hd
          simpa using le_trans hle hmd0
        | succ n =>
          have := hmin n (by simpa using hk)
          simpa using this

theorem bestFit_spec (c : RGBColor) (g0 : RasterColorGroup)
    (rest : List RasterColorGroup) :
    ∃ bi, bi < (g0 :: rest).length ∧
      bestFit c (g0 :: rest) = some (bi,
        colorDist2 c (((g0 :: rest).getD bi dummyRasterGroup).representativeColor)) ∧
      ∀ k, k < (g0 :: rest).length →
        colorDist2 c (((g0 :: rest).getD bi dummyRasterGroup).representativeColor) ≤
          colorDist2 c (((g0 :: rest).getD k dummyRasterGroup).representativeColor) := by
  have hstep : bestFit c (g0 :: rest) =
      bestFitAux c rest 1 (some (0, colorDist2 c g0.representativeColor)) := by
    simp [bestFit, bestFitAux]
  obtain ⟨bi', md', heq, hle, horig, hmin⟩ :=
    bestFitAux_spec c rest 1 0 (colorDist2 c g0.representativeColor)
  rcases horig with ⟨rfl, rfl⟩ | ⟨k, hk, rfl, hmd⟩
  · refine ⟨0, by simp, by rw [hstep, heq]; simp, ?_⟩
    intro k hk
    cases k with
    | zero => simp
    | succ n =>
      have := hmin n (by simpa using hk)
      simpa using this
  · refine ⟨k + 1, by simpa using hk, ?_, ?_⟩
    · rw [hstep, heq, hmd]
      simp [Nat.add_comm]
    · intro m hm
      cases m with
      | zero =>
        have h0 : md' ≤ colorDist2 c g0.representativeColor := hle
        rw [hmd] at h0
        simpa using h0
      | succ n =>
        have := hmin n (by simpa using hm)
        rw [hmd] at this
        simpa using this

/-- C8 (confirmed).  Raster reconstruction recolors every opaque pixel
(alpha ≥ 128) to the representative color of a group at *minimum* RGB
distance over all groups when that minimum is strictly below the threshold,
makes it transparent when the minimum is at or above the threshold, and
always makes pixels with alpha < 128 transparent (with no groups, every
pixel is transparent). -/
theorem raster_reconstruction_bestfit (gs : List RasterColorGroup) (tol : Nat)
    (buf : List RGBA) (k : Nat) (hk : k < buf.length) :
    BestFitReconstruction gs tol buf k := by
  unfold BestFitReconstruction
  have hout : (reconstructImage gs tol buf).getD k clearPixel =
      reconstructPixel gs tol (buf.getD k clearPixel) := by
    unfold reconstructImage
    exact getD_map_of_lt _ _ clearPixel buf k hk
  set p := buf.getD k clearPixel with hp
  refine ⟨?_, ?_, ?_⟩
  · intro ha
    rw [hout]
    unfold reconstructPixel
    rw [if_pos ha]
  · intro ha hgs
    subst hgs
    rw [hout]
    unfold reconstructPixel
    rw [if_neg (by omega)]
    rfl
  · intro ha hgs
    obtain ⟨g0, rest, rfl⟩ : ∃ g0 rest, gs = g0 :: rest := by
      cases gs with
      | nil => exact absurd rfl hgs
      | cons g0 rest => exact ⟨g0, rest, rfl⟩
    obtain ⟨bi, hbi, heq, hmin⟩ := bestFit_spec ⟨p.r, p.g, p.b⟩ g0 rest
    refine ⟨bi, hbi, fun m hm => hmin m hm, ?_, ?_⟩
    · intro hthr
      rw [hout]
      unfold reconstructPixel
      rw [if_neg (by omega), heq]
      exact if_pos hthr
    · intro hthr
      rw [hout]
      unfold reconstructPixel
      rw [if_neg (by omega), heq]
      exact if_neg hthr

/-- Witness for C8: one opaque red pixel against a two-group list. -/
theorem raster_reconstruction_bestfit_witness :
    0 < demoBuf.length ∧ BestFitReconstruction demoRasterGroups 20 demoBuf 0 :=
  ⟨by decide, raster_reconstruction_bestfit demoRasterGroups 20 demoBuf 0 (by decide)⟩

/-! ### C6 — merging a 3-shape group with a 1-shape group -/

theorem getD_append_cons' (A : List α) (x : α) (r : List α) (d : α) (n : Nat)
    (h : A.length = n) : (A ++ x :: r).getD n d = x := by
  subst h
  exact getD_append_cons A x r d

theorem spliceRemoveTwo (gs : List SVGColorGroup) (x : SVGColorGroup)
    (a b : Nat) (hab : a < b) (hb : b < gs.length) :
    (spliceInsert a x
      (filterIdxFrom (fun k => !(decide (k = a) || decide (k = b))) 0 gs)).length =
      gs.length - 1 ∧
    (spliceInsert a x
      (filterIdxFrom (fun k => !(decide (k = a) || decide (k = b))) 0 gs)).getD
        a dummyGroup = x := by
  rw [filterIdxFrom_remove_two gs a b hab]
  have hAlen : (gs.take a).length = a := by
    simp only [List.length_take]
    omega
  constructor
  · unfold spliceInsert
    simp only [List.length_append, List.length_take, List.length_drop,
      List.length_cons]
    omega
  · unfold spliceInsert
    rw [List.append_assoc, List.take_left' hAlen, List.drop_left' hAlen]
    exact getD_append_cons' _ _ _ _ _ hAlen

/-- C6 (confirmed).  When indices `i` and `j` select groups of 3 and 1
shapes, `merge([i,j])` produces one group — representative color taken from
the 3-shape group (the stable dominance sort makes it primary), elements
the concatenation of both groups' shapes (4 in total) — inserted at
position `min(i,j)` of a list one shorter than the original. -/
theorem merge_three_one_groups (gs : List SVGColorGroup) (i j : Nat)
    (hi : i < gs.length) (hj : j < gs.length) (hij : i ≠ j)
    (h3 : (gs.getD i dummyGroup).elements.length = 3)
    (h1 : (gs.getD j dummyGroup).elements.length = 1) :
    (mergeGroupList [i, j] gs).length = gs.length - 1 ∧
    (mergeGroupList [i, j] gs).getD (min i j) dummyGroup =
      ⟨(gs.getD i dummyGroup).representativeColor,
       (gs.getD i dummyGroup).elements ++ (gs.getD j dummyGroup).elements⟩ ∧
    ((mergeGroupList [i, j] gs).getD (min i j) dummyGroup).elements.length = 4 := by
  have hsort : sortByDesc (fun g => g.elements.length)
      [gs.getD i dummyGroup, gs.getD j dummyGroup] =
      [gs.getD i dummyGroup, gs.getD j dummyGroup] := by
    simp only [sortByDesc, insertDesc]
    rw [h1, h3, if_pos (by omega)]
  have hmerge : mergeGroupList [i, j] gs =
      spliceInsert (min i j)
        ⟨(gs.getD i dummyGroup).representativeColor,
         (gs.getD i dummyGroup).elements ++ (gs.getD j dummyGroup).elements⟩
        (filterIdxFrom (fun k => !([i, j].contains k)) 0 gs) := by
    unfold mergeGroupList
    simp only [List.map_cons, List.map_nil, hsort, List.headD_cons,
      List.flatMap_cons, List.flatMap_nil, List.append_nil]
    rfl
  rcases Nat.lt_or_ge i j with hlt | hge
  · have hminij : min i j = i := by omega
    have hfun : (fun k => !([i, j].contains k)) =
        (fun k => !(decide (k = i) || decide (k = j))) := by
      funext k
      by_cases e1 : k = i <;> by_cases e2 : k = j <;>
        simp [List.contains_cons, e1, e2]
    rw [hmerge, hfun, hminij]
    obtain ⟨hlen, hget⟩ := spliceRemoveTwo gs
      ⟨(gs.getD i dummyGroup).representativeColor,
       (gs.getD i dummyGroup).elements ++ (gs.getD j dummyGroup).elements⟩
      i j hlt hj
    refine ⟨hlen, hget, ?_⟩
    rw [hget]
    show ((gs.getD i dummyGroup).elements ++ (gs.getD j dummyGroup).elements).length = 4
    rw [List.length_append, h3, h1]
  · have hlt : j < i := by omega
    have hminij : min i j = j := by omega
    have hfun : (fun k => !([i, j].contains k)) =
        (fun k => !(decide (k = j) || decide (k = i))) := by
      funext k
      by_cases e1 : k = i <;> by_cases e2 : k = j <;>
        simp [List.contains_cons, e1, e2]
    rw [hmerge, hfun, hminij]
    obtain ⟨hlen, hget⟩ := spliceRemoveTwo gs
      ⟨(gs.getD i dummyGroup).representativeColor,
       (gs.getD i dummyGroup).elements ++ (gs.getD j dummyGroup).elements⟩
      j i hlt hi
    refine ⟨hlen, hget, ?_⟩
    rw [hget]
    show ((gs.getD i dummyGroup).elements ++ (gs.getD j dummyGroup).elements).length = 4
    rw [List.length_append, h3, h1]

/-- Witness for C6 on the concrete list `mergeDemoGroups` (sizes 1, 3, 1),
merging indices 1 and 2. -/
theorem merge_three_one_groups_witness :
    (mergeGroupList [1, 2] mergeDemoGroups).length = mergeDemoGroups.length - 1 ∧
    (mergeGroupList [1, 2] mergeDemoGroups).getD (min 1 2) dummyGroup =
      ⟨(mergeDemoGroups.getD 1 dummyGroup).representativeColor,
       (mergeDemoGroups.getD 1 dummyGroup).elements ++
         (mergeDemoGroups.getD 2 dummyGroup).elements⟩ ∧
    ((mergeGroupList [1, 2] mergeDemoGroups).getD (min 1 2) dummyGroup).elements.length = 4 :=
  merge_three_one_groups mergeDemoGroups 1 2 (by decide) (by decide) (by decide)
    (by decide) (by decide)

end StencilArt
